import Mathlib

/-!
Verification of the MKIDPipeline wavelength-calibration core
(`src/mkidpipeline/calibration/wavecal.py`) against its specification.

The Python code is shallowly embedded: floating-point phase/AIC values are
represented by rationals (only order and field operations are used by the
code under verification, except for `np.sqrt`, which is represented over the
reals where it occurs), photon arrival times (microsecond integers) by `ℤ`,
and the mutable per-pixel model objects by explicit records.  The external
model layer (`wavecal_models`, not part of this repository's sources) is
abstracted: a fitted model is a record carrying exactly the pieces of state
that `wavecal.py` itself reads (`best_fit_result.aic`,
`best_fit_result.success`, `has_good_solution()`, the data arrays and the
numeric flag); fit attempts are oracles supplied as parameters.
-/

namespace Wavecal

/-- State of a histogram fit model as observed by `wavecal.py`:
`aic` is `best_fit_result.aic`, `success` is `best_fit_result.success`,
`good` is the value of `has_good_solution()`, `hasData` abstracts
`x is not None and y is not None`, `flag` is the numeric status flag
(`none` = not attempted), `tag` identifies the model instance and `params`
its fitted parameters. -/
structure HistModelFit where
  aic : ℚ
  success : Bool
  good : Bool
  hasData : Bool
  flag : Option ℕ
  tag : ℕ
  params : List ℚ
deriving DecidableEq, Repr

/-- One iteration of the selection loop in
`Calibrator._assign_best_histogram_model` (wavecal.py lines 917-923):
`lower_aic` compares the candidate's AIC with the *current best* model's AIC;
the best model is replaced when the candidate is lower-AIC and good, and the
lowest-AIC tracker is replaced under the same `lower_aic` test. -/
def selStep (bl : HistModelFit × HistModelFit) (m : HistModelFit) :
    HistModelFit × HistModelFit :=
  let lowerAic := decide (m.aic < bl.1.aic)
  ((if lowerAic && m.good then m else bl.1), (if lowerAic then m else bl.2))

/-- `Calibrator._assign_best_histogram_model` (wavecal.py lines 914-940):
fold the selection step over the tried models starting from the first one,
then store the best model with flag 0 if its fit is good, and otherwise the
tracked lowest-AIC model with flag 6 (`did not converge`) or 7
(`converged but failed validation`).  Returns the model written back into the
solution (`none` for an empty list, on which the Python code would raise). -/
def assignBestHistogramModel (tried : List HistModelFit) : Option HistModelFit :=
  match tried with
  | [] => none
  | t0 :: rest =>
    let bl := rest.foldl selStep (t0, t0)
    some (if bl.1.good then { bl.1 with flag := some 0 }
          else { bl.2 with flag := some (if bl.2.success then 7 else 6) })

/-- Lowest-AIC element, ties broken in favour of the earlier element. -/
def minAicFirst (t : HistModelFit) (ts : List HistModelFit) : HistModelFit :=
  ts.foldl (fun b m => if m.aic < b.aic then m else b) t

/-- The claim's selection rule: the lowest-AIC model among the tried models
with a good fit, ties broken in favour of the model tried first. -/
def lowestAicGood (tried : List HistModelFit) : Option HistModelFit :=
  match tried.filter (fun m => m.good) with
  | [] => none
  | g :: gs => some (minAicFirst g gs)

/-- The model actually tracked by the code's `lowest_aic_model` variable
when no tried model is good: since `best_model` then never moves off the
first tried model, `lower_aic` always compares against the *first* model's
AIC, so the tracker ends at the last tried model whose AIC is strictly below
the first model's (or the first model itself). -/
def lastBelowFirst (t0 : HistModelFit) (rest : List HistModelFit) : HistModelFit :=
  rest.foldl (fun l m => if m.aic < t0.aic then m else l) t0

/-- A photon event: arrival time in microseconds (`Time` column) and raw
phase pulse height (`Wavelength` column). -/
structure Photon where
  time : ℤ
  phase : ℚ
deriving DecidableEq, Repr

/-- Sort a photon list by arrival time
(`indices = np.argsort(photon_list['Time']); photon_list = photon_list[indices]`,
wavecal.py lines 768-769). -/
def sortByTime (pl : List Photon) : List Photon :=
  pl.mergeSort (fun a b => a.time ≤ b.time)

/-- The keep mask of `Calibrator._remove_tail_riding_photons`
(wavecal.py line 771):
`logic = np.hstack([True, np.diff(photon_list['Time']) > self.cfg.dt])`,
i.e. `True` for the first sorted event and, for each later event, whether its
gap from the immediately preceding sorted event strictly exceeds `dt`. -/
def keepMask (dt : ℤ) (s : List Photon) : List Bool :=
  match s with
  | [] => []
  | _ :: tail => true :: List.zipWith (fun a b => decide (dt < b.time - a.time)) s tail

/-- Boolean-mask selection `photon_list[logic]` (wavecal.py line 772). -/
def applyMask : List Photon → List Bool → List Photon
  | p :: ps, b :: bs => (if b then [p] else []) ++ applyMask ps bs
  | _, _ => []

/-- `Calibrator._remove_tail_riding_photons` (wavecal.py lines 767-773):
sort by arrival time, then keep the events selected by the diff-based mask. -/
def removeTailRiding (dt : ℤ) (pl : List Photon) : List Photon :=
  applyMask (sortByTime pl) (keepMask dt (sortByTime pl))

/-- Recursive form of the consecutive-gap filter: `prev` is the immediately
preceding event in sorted order (kept or not); an event is kept iff its gap
from `prev` strictly exceeds `dt`. -/
def consecKeep (dt : ℤ) : Photon → List Photon → List Photon
  | _, [] => []
  | prev, p :: ps =>
    (if dt < p.time - prev.time then [p] else []) ++ consecKeep dt p ps

/-- The claim's reading of the tail-riding filter, following the claim's
words: `prev` is the previous *kept* event, and an event is kept iff its gap
from the previous kept event strictly exceeds `dt`; the first event is always
kept. -/
def keepAfterKept (dt : ℤ) : Photon → List Photon → List Photon
  | _, [] => []
  | prev, p :: ps =>
    if dt < p.time - prev.time then p :: keepAfterKept dt p ps
    else keepAfterKept dt prev ps

/-- The claim's version of `_remove_tail_riding_photons`: sort by time, keep
the first event, then keep exactly the events whose gap from the previous
kept event exceeds `dt`. -/
def removeTailRidingSpec (dt : ℤ) (pl : List Photon) : List Photon :=
  match sortByTime pl with
  | [] => []
  | p :: ps => p :: keepAfterKept dt p ps

/-- C2 counterexample input: three photons at times 0, 8, 16 µs. -/
def c2Photons : List Photon := [⟨0, -1⟩, ⟨8, -1⟩, ⟨16, -1⟩]

/-- Minimum of a rational list (`np.min`; 0 for the empty list, on which
numpy would raise). -/
def listMinQ (l : List ℚ) : ℚ :=
  match l with
  | [] => 0
  | x :: xs => xs.foldl min x

/-- Maximum of a rational list (`np.max`; 0 for the empty list). -/
def listMaxQ (l : List ℚ) : ℚ :=
  match l with
  | [] => 0
  | x :: xs => xs.foldl max x

/-- Minimum of an integer list (`np.min` over times; 0 for the empty list). -/
def listMinZ (l : List ℤ) : ℤ :=
  match l with
  | [] => 0
  | x :: xs => xs.foldl min x

/-- Maximum of an integer list (`np.max` over times; 0 for the empty list). -/
def listMaxZ (l : List ℤ) : ℤ :=
  match l with
  | [] => 0
  | x :: xs => xs.foldl max x

/-- Length of `np.arange(max_phase, min_phase - width, -width)`:
`ceil((stop - start) / step) = ceil((max - min) / width) + 1` entries. -/
def numEdges (width minP maxP : ℚ) : ℕ :=
  (⌈(maxP - minP) / width⌉).toNat + 1

/-- The ascending bin edges of `Calibrator._histogram` (wavecal.py
lines 789-790): `np.arange(max_phase, min_phase - bin_width, -bin_width)`
reversed, i.e. edges anchored at the maximum phase value and stepping
backward by `width`. -/
def binEdges (width : ℚ) (ps : List ℚ) : List ℚ :=
  let minP := listMinQ ps
  let maxP := listMaxQ ps
  let n := numEdges width minP maxP
  (List.range n).map (fun j => maxP - ((n - 1 - j : ℕ) : ℚ) * width)

/-- `np.histogram` bin counts for the given ascending edges: bin `i` is
half-open `[e_i, e_{i+1})` except the last bin, which is closed. -/
def histCounts (edges : List ℚ) (ps : List ℚ) : List ℕ :=
  let n := edges.length
  (List.range (n - 1)).map (fun i =>
    (ps.filter (fun x => decide (edges.getD i 0 ≤ x ∧
      (x < edges.getD (i + 1) 0 ∨ (i = n - 2 ∧ x ≤ edges.getD (i + 1) 0))))).length)

/-- One binning attempt of `Calibrator._histogram`: bin centers
`(x0[:-1] + x0[1:]) / 2` and the bin counts. -/
structure HistAttempt where
  centers : List ℚ
  counts : List ℕ
deriving DecidableEq, Repr

/-- Build one histogram attempt at the given bin width. -/
def mkAttempt (width : ℚ) (ps : List ℚ) : HistAttempt :=
  let edges := binEdges width ps
  ⟨List.zipWith (fun a b => (a + b) / 2) edges edges.tail, histCounts edges ps⟩

/-- `np.max(counts)` (counts are naturals, so the 0 seed is exact for
non-empty count lists). -/
def peakOf (a : HistAttempt) : ℕ := a.counts.foldl max 0

/-- The `while max_count < 400 and update < 3` loop of
`Calibrator._histogram` (wavecal.py lines 784-798): each iteration rebuilds
the histogram with bin width `bin_width * 2 ** update` and updates the peak
count and the attempt counter. -/
def histWhile (w : ℚ) (ps : List ℚ) (prev : HistAttempt) (maxCount update : ℕ) :
    ℕ × HistAttempt :=
  if h : maxCount < 400 ∧ update < 3 then
    let a := mkAttempt (w * 2 ^ update) ps
    histWhile w ps a (peakOf a) (update + 1)
  else (update, prev)
termination_by 3 - update
decreasing_by omega

/-- `Calibrator._histogram` (wavecal.py lines 775-800): run the binning loop
from `max_count = 0`, `update = 0`; returns the number of attempts made and
the final histogram. -/
def histogramRun (w : ℚ) (ps : List ℚ) : ℕ × HistAttempt :=
  histWhile w ps ⟨[], []⟩ 0 0

/-- Per-bin variance `np.sqrt(counts ** 2 + 0.25) - 0.5`
(wavecal.py line 453). -/
noncomputable def varMLE (c : ℕ) : ℝ := Real.sqrt ((c : ℝ) ^ 2 + 1 / 4) - 1 / 2

/-- Data slots of a per-(pixel, wavelength) histogram model as set by
`Calibrator.make_histograms`: the status flag (`none` = not yet flagged, the
default state of a freshly created model) and the nullable `x` (bin centers),
`y` (counts) and `variance` arrays. -/
structure HistData where
  flag : Option ℕ
  x : Option (List ℚ)
  y : Option (List ℕ)
  variance : Option (List ℝ)

/-- The per-(pixel, wavelength) body of `Calibrator.make_histograms`
(wavecal.py lines 410-455), starting from a freshly created model
(`x = y = None`): fewer than 2 photons → flag 1; count rate above 2000 cps →
flag 2 (the rate test `len * 1e6 / (max_time - min_time) > 2000` is written
multiplied out, which also matches numpy's infinite rate when all arrival
times coincide); all photons removed by the arrival-time cut → flag 3; all
photons removed by the negative-phase cut → flag 4; otherwise attach the
histogram data. -/
noncomputable def processPixelWavelength (dt : ℤ) (w : ℚ) (pl : List Photon) :
    HistData :=
  if pl.length < 2 then ⟨some 1, none, none, none⟩
  else
    let times := pl.map (fun p => p.time)
    if 2000 * (listMaxZ times - listMinZ times) < (pl.length : ℤ) * 1000000 then
      ⟨some 2, none, none, none⟩
    else
      let pl2 := removeTailRiding dt pl
      if pl2.length = 0 then ⟨some 3, none, none, none⟩
      else
        let phases := (pl2.map (fun p => p.phase)).filter (fun x => decide (x < 0))
        if phases.length = 0 then ⟨some 4, none, none, none⟩
        else
          let r := histogramRun w phases
          ⟨none, some r.2.centers, some r.2.counts, some (r.2.counts.map varMLE)⟩

/-- Default model used only as the `getD` fallback in statements. -/
def mdefault : HistModelFit := ⟨0, false, false, false, none, 0, []⟩

/-- Per-wavelength state after the first pass of `Calibrator.fit_histograms`:
`stored` is the model held by the solution store — the `model.copy()` written
by `_assign_best_histogram_model` (line 556) — while `stale` is the object
still referenced by the `models` array fetched at line 494 (numpy fancy
indexing copies the container, and `set_histogram_models` rebinds only the
store), i.e. the first-configured-class object carrying its own last pass-1
fit state.  The second pass reads `stale` for the per-wavelength guards
(lines 562-565) but reads `good_solutions` from the store (line 560). -/
structure PixelSlot where
  stored : HistModelFit
  stale : HistModelFit
deriving DecidableEq, Repr

/-- Default pixel slot used only as the `getD` fallback in statements. -/
def sdefault : PixelSlot := ⟨mdefault, mdefault⟩

/-- The retry class loop of the second pass of `Calibrator.fit_histograms`
(wavecal.py lines 570-588), over the remaining class indices: at class 0 the
local `model` variable is the stale first-class object, `isinstance` prevents
a swap, and a good fit `break`s WITHOUT writing the store; at class `c ≥ 1`
(the configured classes being distinct) `_update_histogram_model` has
replaced the stored model by a fresh class-`c` object, so its in-place fit
reaches the store; when no class produces a good fit, the `for`-`else`
applies `_assign_best_histogram_model` to the collected failed outcomes
(`stored` is kept when that list is empty, where Python would raise).
`oracle i c` is the model state after `model.fit(guess)` for wavelength
index `i` and class `c`. -/
def retryLoop (oracle : ℕ → ℕ → HistModelFit) (i : ℕ) (stored : HistModelFit)
    (tried : List HistModelFit) : List ℕ → HistModelFit
  | [] =>
    match assignBestHistogramModel tried with
    | some b => b
    | none => stored
  | c :: cs =>
    let o := oracle i c
    if o.good then (if c = 0 then stored else o)
    else retryLoop oracle i stored (tried ++ [o]) cs

/-- One full retry (the class loop over `List.range C`): returns the
resulting stored model together with the stale object, which is refit in the
class-0 iteration (and left unchanged when there are no classes). -/
def retryResult (C : ℕ) (oracle : ℕ → ℕ → HistModelFit) (i : ℕ)
    (stored stale : HistModelFit) : PixelSlot :=
  ⟨retryLoop oracle i stored [] (List.range C),
   if 0 < C then oracle i 0 else stale⟩

/-- The second pass of `Calibrator.fit_histograms` (wavecal.py lines
558-588): `good_solutions` is read once from the STORE (line 560); each
wavelength's data and goodness guards are evaluated on the STALE
`models[index]` object (lines 562-565); the any-longer test uses the store
snapshot (line 569).  The second component records whether a retry was
attempted.  (Second-pass writes at earlier indices cannot influence later
indices' conditions, which only inspect strictly longer wavelengths, so the
snapshot semantics is exact.) -/
def secondPassAliased (C : ℕ) (oracle : ℕ → ℕ → HistModelFit)
    (slots : List PixelSlot) : List (PixelSlot × Bool) :=
  let goods := slots.map (fun s => s.stored.good)
  slots.mapIdx (fun i s =>
    if s.stale.hasData && !s.stale.good && (goods.drop (i + 1)).any id then
      (retryResult C oracle i s.stored s.stale, true)
    else (s, false))

/-- C3 counterexample data: the pass-1 stored model at the retried
wavelength, a not-good fit flagged 7 by `_assign_best_histogram_model`. -/
def c3StoredBad : HistModelFit := ⟨1, true, false, true, some 7, 0, []⟩

/-- C3 counterexample data: the stale `models[index]` object at the retried
wavelength: the same not-good fit state, histogram data attached. -/
def c3StaleBad : HistModelFit := ⟨1, true, false, true, none, 0, []⟩

/-- C3 counterexample data: the longer wavelength's stored model, a good fit
flagged 0. -/
def c3StoredGood : HistModelFit := ⟨2, true, true, true, some 0, 1, []⟩

/-- C3 counterexample data: the longer wavelength's stale object (also good,
as when the first configured class won pass 1). -/
def c3StaleGood : HistModelFit := ⟨2, true, true, true, none, 0, []⟩

/-- C3 counterexample data: the two-wavelength pixel state after pass 1. -/
def c3Slots : List PixelSlot :=
  [⟨c3StoredBad, c3StaleBad⟩, ⟨c3StoredGood, c3StaleGood⟩]

/-- C3 data: the good fit produced by the retry oracle. -/
def c3RetryModel : HistModelFit := ⟨5, true, true, true, none, 1, []⟩

/-- C3 witness data: a retry oracle whose class-0 fit fails and whose
class-1 fit is `c3RetryModel`. -/
def c3Oracle : ℕ → ℕ → HistModelFit :=
  fun _ c => if c = 0 then ⟨4, true, false, true, none, 0, []⟩ else c3RetryModel

/-- The monotonicity test of `Calibrator.fit_calibrations` (wavecal.py
lines 650-652): `diff = np.diff(phases)`, `sigma = np.sqrt(variance)`, and
the test `(diff < -4 * (sigma[:-1] + sigma[1:])).any()`.  Here `sigmas` are
the standard errors themselves (`variance` holds their squares, so
`np.sqrt(variance)` recovers them exactly). -/
def monoViolation (phases sigmas : List ℚ) : Bool :=
  (List.zipWith (fun d t => decide (d < t))
    (List.zipWith (fun a b => b - a) phases phases.tail)
    (List.zipWith (fun a b => -4 * (a + b)) sigmas sigmas.tail)).any id

/-- The data-sufficiency and monotonicity checks of
`Calibrator.fit_calibrations` (wavecal.py lines 643-660) on the assembled
good-fit data: fewer than 3 points → flag 11 and `continue` (no fit);
otherwise flag 12 iff the monotonicity test fires, and the calibration-model
fitting loop is reached either way.  Returns the flag state after the checks
and whether fitting is attempted. -/
def calibCheck (phases sigmas : List ℚ) : Option ℕ × Bool :=
  if phases.length < 3 then (some 11, false)
  else ((if monoViolation phases sigmas then some 12 else none), true)

/-- First index attaining the minimum (`np.argmin`; the list length if the
list is empty, on which numpy would raise). -/
def argminIdx (l : List ℚ) : ℕ := l.findIdx (fun x => decide (x = listMinQ l))

/-- First index attaining the maximum (`np.argmax`). -/
def argmaxIdx (l : List ℚ) : ℕ := l.findIdx (fun x => decide (x = listMaxQ l))

/-- The valid-domain assignment of `Calibrator.fit_calibrations` (wavecal.py
lines 639-642): `min_x = x[argmin(x)] - 3 * np.sqrt(sigmas[argmin(x)])` and
`max_x = x[argmax(x)] + 3 * np.sqrt(sigmas[argmax(x)])`, where `sigmas[i]`
is the histogram fit's `signal_sigma.value` at the i-th good point. -/
noncomputable def calibDomain (phases sigmas : List ℚ) : ℝ × ℝ :=
  let i := argminIdx phases
  let j := argmaxIdx phases
  (((phases.getD i 0 : ℚ) : ℝ) - 3 * Real.sqrt ((sigmas.getD i 0 : ℚ) : ℝ),
   ((phases.getD j 0 : ℚ) : ℝ) + 3 * Real.sqrt ((sigmas.getD j 0 : ℚ) : ℝ))

/-- State of a calibration-curve model: fit summary, flag and parameters. -/
structure CalModelFit where
  aic : ℚ
  success : Bool
  good : Bool
  flag : Option ℕ
  params : List ℚ
deriving DecidableEq, Repr

/-- One slot of the per-pixel fit array: the histogram models (one per
configured wavelength) and the calibration model. -/
structure FitElement where
  histograms : List HistModelFit
  calibration : CalModelFit
deriving DecidableEq, Repr

/-- The state of a `Solution` object that `Solution.save` persists: the
2-D per-pixel fit array, the configuration (left abstract as a type
parameter; `save` re-instantiates a `__main__`-defined `Configuration` from
the same configuration path before pickling, preserving its content), the
beam map and the beam-map flags. -/
structure SolutionState (Cfg : Type) where
  fit_array : List (List FitElement)
  cfg : Cfg
  beam_map : List (List ℤ)
  beam_map_flags : List (List ℕ)

/-- The `.npz` archive written by `Solution.save` (wavecal.py lines
1206-1208): `np.savez(save_path, fit_array=..., configuration=...,
beam_map=..., beam_map_flags=...)`; keyword names become archive keys, and
`np.load` returns the stored values unchanged (the 0-d object wrapping of
`configuration` is undone by `.item()` on load). -/
structure NpzSolutionFile (Cfg : Type) where
  fit_array : List (List FitElement)
  configuration : Cfg
  beam_map : List (List ℤ)
  beam_map_flags : List (List ℕ)

/-- `Solution.save` (wavecal.py lines 1192-1208): write the four components
under their archive keys. -/
def solutionSave {Cfg : Type} (s : SolutionState Cfg) : NpzSolutionFile Cfg :=
  ⟨s.fit_array, s.cfg, s.beam_map, s.beam_map_flags⟩

/-- `Solution.load` (wavecal.py lines 1210-1217): read the four components
back from their archive keys. -/
def solutionLoad {Cfg : Type} (f : NpzSolutionFile Cfg) : SolutionState Cfg :=
  ⟨f.fit_array, f.configuration, f.beam_map, f.beam_map_flags⟩

/-- A pixel coordinate (x, y). -/
abbrev PixelPos := ℕ × ℕ

/-- Result merging of `Calibrator._acquire_data` (wavecal.py line 1010):
`self.solution[pixel[0], pixel[1]] = fit_element`, keyed by the pixel
coordinate carried in the result, independent of completion order. -/
def applyResult {α : Type} (st : PixelPos → Option α) (r : PixelPos × α) :
    PixelPos → Option α :=
  fun q => if q = r.1 then some r.2 else st q

/-- Draining the output queue (`Calibrator._parallel`, wavecal.py lines
753-755): fold the worker results into the solution store in the order they
complete. -/
def mergeResults {α : Type} (init : PixelPos → Option α)
    (rs : List (PixelPos × α)) : PixelPos → Option α :=
  rs.foldl applyResult init

/-- The per-pixel work results: each worker runs the same deterministic
method on a private `Calibrator` built from the same configuration
(`Worker.run`, wavecal.py lines 1075-1111), so the result for pixel `p` is a
function `compute p` of the pixel alone, whatever worker computes it. -/
def workerOutputs {α : Type} (pixels : List PixelPos) (compute : PixelPos → α) :
    List (PixelPos × α) :=
  pixels.map (fun p => (p, compute p))

/-- C1: the claim is false on the code.  Two tried models: the first with a
converged but not-good fit and AIC 1, the second with a good fit and AIC 2.
The claim requires the lowest-AIC good model (the second, AIC 2) to be stored
with flag 0; the code's `lower_aic` test compares against the current *best*
model's AIC (initialised to the first, possibly bad, model), never replaces
it, and stores the not-good first model with flag 7. -/
theorem c1_counterexample :
    assignBestHistogramModel
        [⟨1, true, false, true, none, 0, []⟩, ⟨2, true, true, true, none, 1, []⟩]
      = some ⟨1, true, false, true, some 7, 0, []⟩
    ∧ lowestAicGood
        [⟨1, true, false, true, none, 0, []⟩, ⟨2, true, true, true, none, 1, []⟩]
      = some ⟨2, true, true, true, none, 1, []⟩
    ∧ (assignBestHistogramModel
        [⟨1, true, false, true, none, 0, []⟩, ⟨2, true, true, true, none, 1, []⟩]).map
          (fun m => m.flag) ≠ some (some 0) := by
  refine ⟨rfl, rfl, ?_⟩
  decide

/-- Helper: the selection fold's best component computes the first-tie-break
minimum-AIC model over the good-filtered candidates whenever the running best
is good (bad candidates never displace it, good ones only on strictly lower
AIC). -/
theorem selFold_best_good :
    ∀ (rest : List HistModelFit) (b l : HistModelFit), b.good = true →
      (rest.foldl selStep (b, l)).1
        = minAicFirst b (rest.filter (fun m => m.good))
  | [], b, _, _ => by simp [minAicFirst]
  | m :: rest, b, l, hb => by
    rw [List.foldl_cons]
    by_cases hg : m.good = true
    · by_cases ha : m.aic < b.aic
      · have hstep : selStep (b, l) m = (m, m) := by
          simp [selStep, ha, hg]
        rw [hstep, selFold_best_good rest m m hg,
          List.filter_cons_of_pos hg]
        show _ = List.foldl (fun b2 m2 => if m2.aic < b2.aic then m2 else b2)
          b (m :: rest.filter (fun m2 => m2.good))
        rw [List.foldl_cons, if_pos ha]
        rfl
      · have hstep : selStep (b, l) m = (b, l) := by
          simp [selStep, ha]
        rw [hstep, selFold_best_good rest b l hb, List.filter_cons_of_pos hg]
        show _ = List.foldl (fun b2 m2 => if m2.aic < b2.aic then m2 else b2)
          b (m :: rest.filter (fun m2 => m2.good))
        rw [List.foldl_cons, if_neg ha]
        rfl
    · have hstep : selStep (b, l) m = (b, if m.aic < b.aic then m else l) := by
        simp [selStep, hg]
      rw [hstep, selFold_best_good rest b _ hb,
        List.filter_cons_of_neg (by simpa using hg)]

/-- Helper: the first-tie-break minimum-AIC fold returns the seed or a list
element. -/
theorem minAicFirst_mem :
    ∀ (gs : List HistModelFit) (b : HistModelFit),
      minAicFirst b gs = b ∨ minAicFirst b gs ∈ gs
  | [], _ => Or.inl rfl
  | g :: gs, b => by
    show minAicFirst (if g.aic < b.aic then g else b) gs = b
        ∨ minAicFirst (if g.aic < b.aic then g else b) gs ∈ g :: gs
    rcases minAicFirst_mem gs (if g.aic < b.aic then g else b) with h | h
    · rw [h]
      by_cases ha : g.aic < b.aic
      · rw [if_pos ha]
        exact Or.inr (List.mem_cons_self g gs)
      · rw [if_neg ha]
        exact Or.inl rfl
    · exact Or.inr (List.mem_cons_of_mem g h)

/-- Helper: over good candidates the minimum-AIC fold keeps a good model. -/
theorem minAicFirst_good (gs : List HistModelFit) (b : HistModelFit)
    (hb : b.good = true) (hgs : ∀ g ∈ gs, g.good = true) :
    (minAicFirst b gs).good = true := by
  rcases minAicFirst_mem gs b with h | h
  · rw [h]
    exact hb
  · exact hgs _ h

/-- Helper: when neither the running best nor any candidate is good, the
best tracker stays put and the lowest tracker folds against the running
best's (fixed) AIC. -/
theorem selFold_all_bad :
    ∀ (rest : List HistModelFit) (b l : HistModelFit), b.good = false →
      (∀ m ∈ rest, m.good = false) →
      rest.foldl selStep (b, l)
        = (b, rest.foldl (fun l2 m => if m.aic < b.aic then m else l2) l)
  | [], _, _, _, _ => rfl
  | m :: rest, b, l, hb, hbad => by
    rw [List.foldl_cons, List.foldl_cons]
    have hstep : selStep (b, l) m = (b, if m.aic < b.aic then m else l) := by
      simp [selStep, hbad m (List.mem_cons_self m rest)]
    rw [hstep]
    exact selFold_all_bad rest b _ hb (fun x hx => hbad x (List.mem_cons_of_mem m hx))

/-- C1 amended: selection starts from the first tried model and a candidate
replaces the running best only if its AIC is strictly below the running
best's AIC *and* its fit is good.  Consequently (a) when the first tried
model's fit is good, the stored model is the lowest-AIC good-fit model (ties
broken toward the model tried first) with flag 0; and (b) when no tried
model has a good fit, the stored model is the last tried model whose AIC is
strictly below the *first* tried model's AIC (the first model if there is
none) — not necessarily the global AIC minimum — flagged 6 when its fit did
not converge and 7 when it converged. -/
theorem c1_amended (t0 : HistModelFit) (rest : List HistModelFit) :
    (t0.good = true →
      ∃ b, lowestAicGood (t0 :: rest) = some b
        ∧ assignBestHistogramModel (t0 :: rest) = some { b with flag := some 0 })
    ∧ (t0.good = false → (∀ m ∈ rest, m.good = false) →
      assignBestHistogramModel (t0 :: rest)
        = some { lastBelowFirst t0 rest with
            flag := some (if (lastBelowFirst t0 rest).success then 7 else 6) }) := by
  constructor
  · intro hb
    have hfold := selFold_best_good rest t0 t0 hb
    have hgood : ((rest.foldl selStep (t0, t0)).1).good = true := by
      rw [hfold]
      exact minAicFirst_good _ _ hb (fun g hg => (List.mem_filter.mp hg).2)
    refine ⟨minAicFirst t0 (rest.filter (fun m => m.good)), ?_, ?_⟩
    · unfold lowestAicGood
      rw [List.filter_cons_of_pos hb]
    · simp only [assignBestHistogramModel]
      rw [if_pos hgood, hfold]
  · intro hb hbad
    simp only [assignBestHistogramModel]
    rw [selFold_all_bad rest t0 t0 hb hbad]
    rw [if_neg (by simpa using hb)]
    rfl

/-- C1 amended witness: with a good first model of AIC 3 and a good second
model of AIC 2, the second model is stored with flag 0. -/
theorem c1_amended_witness :
    ∃ b, lowestAicGood
          [⟨3, true, true, true, none, 0, []⟩, ⟨2, true, true, true, none, 1, []⟩]
        = some b
      ∧ assignBestHistogramModel
          [⟨3, true, true, true, none, 0, []⟩, ⟨2, true, true, true, none, 1, []⟩]
        = some { b with flag := some 0 } :=
  (c1_amended ⟨3, true, true, true, none, 0, []⟩
    [⟨2, true, true, true, none, 1, []⟩]).1 rfl

/-- Helper: masking a list with the diff-based mask of its own predecessor
equals the recursive consecutive-gap filter. -/
theorem applyMask_zip_eq_consec (dt : ℤ) :
    ∀ (p : Photon) (ps : List Photon),
      applyMask ps (List.zipWith (fun a b => decide (dt < b.time - a.time)) (p :: ps) ps)
        = consecKeep dt p ps
  | _, [] => rfl
  | p, q :: qs => by
    simp only [List.zipWith, applyMask, consecKeep, applyMask_zip_eq_consec dt q qs,
      decide_eq_true_eq]

/-- Helper: the code's mask-based filter equals first-event-kept followed by
the consecutive-gap filter. -/
theorem removeTailRiding_eq_consec (dt : ℤ) (pl : List Photon) :
    removeTailRiding dt pl =
      (match sortByTime pl with
       | [] => []
       | p :: ps => p :: consecKeep dt p ps) := by
  unfold removeTailRiding keepMask
  cases h : sortByTime pl with
  | nil => rfl
  | cons p ps =>
    simp only [applyMask, if_pos, List.singleton_append, List.cons.injEq, true_and]
    exact applyMask_zip_eq_consec dt p ps

/-- C2: the claim is false on the code.  With `dt = 10` and sorted times
`[0, 8, 16]`, the previous-kept reading demanded by the claim keeps the
events at 0 and 16 (16 − 0 > 10), but the code's `np.diff` mask keeps only
the event at 0 (both consecutive gaps are 8 ≤ 10). -/
theorem c2_counterexample :
    removeTailRidingSpec 10 c2Photons = [⟨0, -1⟩, ⟨16, -1⟩]
    ∧ removeTailRiding 10 c2Photons = [⟨0, -1⟩]
    ∧ removeTailRiding 10 c2Photons ≠ removeTailRidingSpec 10 c2Photons := by
  have hs : sortByTime c2Photons = c2Photons := List.mergeSort_of_sorted (by decide)
  refine ⟨?_, ?_, ?_⟩
  · unfold removeTailRidingSpec
    rw [hs]
    decide
  · unfold removeTailRiding
    rw [hs]
    decide
  · unfold removeTailRiding removeTailRidingSpec
    rw [hs]
    decide

/-- C2 amended: after sorting by arrival time, the code keeps the first event
and exactly those events whose time-gap from the *immediately preceding
event in sorted order* (kept or not) strictly exceeds the configured
dead-time `dt`. -/
theorem c2_amended (dt : ℤ) (pl : List Photon) :
    removeTailRiding dt pl =
      (match sortByTime pl with
       | [] => []
       | p :: ps => p :: consecKeep dt p ps) :=
  removeTailRiding_eq_consec dt pl

/-- Helper: closed-form case analysis of the binning loop. -/
theorem histogramRun_eq (w : ℚ) (ps : List ℚ) :
    histogramRun w ps =
      if peakOf (mkAttempt (w * 2 ^ 0) ps) < 400 then
        if peakOf (mkAttempt (w * 2 ^ 1) ps) < 400 then (3, mkAttempt (w * 2 ^ 2) ps)
        else (2, mkAttempt (w * 2 ^ 1) ps)
      else (1, mkAttempt (w * 2 ^ 0) ps) := by
  unfold histogramRun
  rw [histWhile, dif_pos (by norm_num : (0:ℕ) < 400 ∧ (0:ℕ) < 3)]
  show histWhile w ps (mkAttempt (w * 2 ^ 0) ps) (peakOf (mkAttempt (w * 2 ^ 0) ps)) 1 = _
  by_cases h0 : peakOf (mkAttempt (w * 2 ^ 0) ps) < 400
  · rw [histWhile, dif_pos ⟨h0, by norm_num⟩]
    show histWhile w ps (mkAttempt (w * 2 ^ 1) ps) (peakOf (mkAttempt (w * 2 ^ 1) ps)) 2 = _
    by_cases h1 : peakOf (mkAttempt (w * 2 ^ 1) ps) < 400
    · rw [histWhile, dif_pos ⟨h1, by norm_num⟩]
      show histWhile w ps (mkAttempt (w * 2 ^ 2) ps) (peakOf (mkAttempt (w * 2 ^ 2) ps)) 3 = _
      rw [histWhile, dif_neg (by omega), if_pos h0, if_pos h1]
    · rw [histWhile, dif_neg (fun hc => h1 hc.1), if_pos h0, if_neg h1]
  · rw [histWhile, dif_neg (fun hc => h0 hc.1), if_neg h0]

/-- Helper: the largest bin edge is the maximum phase value. -/
theorem binEdges_getLast (width : ℚ) (ps : List ℚ) :
    (binEdges width ps).getLast? = some (listMaxQ ps) := by
  unfold binEdges
  have hn : 0 < numEdges width (listMinQ ps) (listMaxQ ps) := Nat.succ_pos _
  set n := numEdges width (listMinQ ps) (listMaxQ ps) with hdef
  rw [List.getLast?_eq_getElem?]
  simp only [List.length_map, List.length_range]
  rw [List.getElem?_map, List.getElem?_range (by omega : n - 1 < n)]
  simp

/-- C6: for every phase list, the binning loop of `Calibrator._histogram`
makes between 1 and 3 attempts and terminates; attempt `k` (0-based) uses bin
width `bin_width * 2 ^ k`; the returned histogram is the last attempt's; a
further attempt is made only while the current peak bin count is below 400
and fewer than 3 attempts have been made; and each attempt's bin edges are
anchored at the maximum phase value. -/
theorem c6_histogram_attempts (w : ℚ) (ps : List ℚ) :
    (1 ≤ (histogramRun w ps).1 ∧ (histogramRun w ps).1 ≤ 3)
    ∧ (histogramRun w ps).2 = mkAttempt (w * 2 ^ ((histogramRun w ps).1 - 1)) ps
    ∧ (∀ k, k + 1 < (histogramRun w ps).1 →
        peakOf (mkAttempt (w * 2 ^ k) ps) < 400)
    ∧ ((histogramRun w ps).1 < 3 →
        400 ≤ peakOf (mkAttempt (w * 2 ^ ((histogramRun w ps).1 - 1)) ps))
    ∧ (∀ k, (binEdges (w * 2 ^ k) ps).getLast? = some (listMaxQ ps)) := by
  rw [histogramRun_eq]
  by_cases h0 : peakOf (mkAttempt (w * 2 ^ 0) ps) < 400
  · by_cases h1 : peakOf (mkAttempt (w * 2 ^ 1) ps) < 400
    · simp only [if_pos h0, if_pos h1]
      refine ⟨⟨by norm_num, by norm_num⟩, by trivial, ?_, ?_, fun k => binEdges_getLast _ _⟩
      · intro k hk
        change k + 1 < 3 at hk
        have hk2 : k < 2 := by omega
        interval_cases k
        · exact h0
        · exact h1
      · intro hk
        change (3:ℕ) < 3 at hk
        omega
    · simp only [if_pos h0, if_neg h1]
      refine ⟨⟨by norm_num, by norm_num⟩, by trivial, ?_, ?_, fun k => binEdges_getLast _ _⟩
      · intro k hk
        change k + 1 < 2 at hk
        have hk1 : k < 1 := by omega
        interval_cases k
        exact h0
      · intro _
        show 400 ≤ peakOf (mkAttempt (w * 2 ^ 1) ps)
        omega
  · simp only [if_neg h0]
    refine ⟨⟨by norm_num, by norm_num⟩, by trivial, ?_, ?_, fun k => binEdges_getLast _ _⟩
    · intro k hk
      change k + 1 < 1 at hk
      omega
    · intro _
      show 400 ≤ peakOf (mkAttempt (w * 2 ^ 0) ps)
      omega

/-- C6 witness: a concrete run (two phases, unit width) terminates with at
most three attempts. -/
theorem c6_histogram_attempts_witness :
    1 ≤ (histogramRun 1 [-5, -1]).1 ∧ (histogramRun 1 [-5, -1]).1 ≤ 3 :=
  (c6_histogram_attempts 1 [-5, -1]).1

/-- C7: a photon list with fewer than 2 events makes
`Calibrator.make_histograms` set flag 1 (`there are no photons`) and leave
the model's x and y data unset. -/
theorem c7_no_photons (dt : ℤ) (w : ℚ) (pl : List Photon) (h : pl.length < 2) :
    (processPixelWavelength dt w pl).flag = some 1
    ∧ (processPixelWavelength dt w pl).x = none
    ∧ (processPixelWavelength dt w pl).y = none := by
  unfold processPixelWavelength
  rw [if_pos h]
  exact ⟨rfl, rfl, rfl⟩

/-- C7 witness: the empty photon list is flagged 1 with null data. -/
theorem c7_no_photons_witness :
    (processPixelWavelength 0 1 []).flag = some 1
    ∧ (processPixelWavelength 0 1 []).x = none
    ∧ (processPixelWavelength 0 1 []).y = none :=
  c7_no_photons 0 1 [] (by decide)

/-- Helper: the boolean time-ordering used by `sortByTime` is transitive. -/
theorem timeLe_trans (a b c : Photon) :
    (decide (a.time ≤ b.time)) = true → (decide (b.time ≤ c.time)) = true →
      (decide (a.time ≤ c.time)) = true := by
  simp only [decide_eq_true_eq]
  exact le_trans

/-- Helper: the boolean time-ordering used by `sortByTime` is total. -/
theorem timeLe_total (a b : Photon) :
    ((decide (a.time ≤ b.time)) || (decide (b.time ≤ a.time))) = true := by
  simp only [Bool.or_eq_true, decide_eq_true_eq]
  exact Int.le_total _ _

/-- Helper: on a non-empty photon list the tail-riding filter returns a
non-empty list headed by an event of minimal arrival time. -/
theorem removeTailRiding_head_min (dt : ℤ) (pl : List Photon) (h : pl ≠ []) :
    removeTailRiding dt pl ≠ []
    ∧ ∃ p ∈ removeTailRiding dt pl, ∀ q ∈ pl, p.time ≤ q.time := by
  have hlen : (sortByTime pl).length = pl.length := List.length_mergeSort pl
  have hne : sortByTime pl ≠ [] := by
    intro hcon
    exact h (List.length_eq_zero.mp (by rw [← hlen, hcon]; rfl))
  rcases hs : sortByTime pl with _ | ⟨p, ps⟩
  · exact absurd hs hne
  have hform := removeTailRiding_eq_consec dt pl
  rw [hs] at hform
  constructor
  · rw [hform]
    exact List.cons_ne_nil _ _
  · refine ⟨p, by rw [hform]; exact List.mem_cons_self _ _, ?_⟩
    intro q hq
    have hsorted : List.Pairwise (fun a b : Photon => (decide (a.time ≤ b.time)) = true)
        (sortByTime pl) := List.sorted_mergeSort timeLe_trans timeLe_total pl
    rw [hs, List.pairwise_cons] at hsorted
    have hqmem : q ∈ sortByTime pl := by
      rw [sortByTime, List.mem_mergeSort]
      exact hq
    rw [hs] at hqmem
    rcases List.mem_cons.mp hqmem with hqp | hqps
    · rw [hqp]
    · have := hsorted.1 q hqps
      rw [decide_eq_true_eq] at this
      exact this

/-- C10: on every non-empty photon list the tail-riding removal returns a
non-empty list containing an earliest-arrival event, and consequently the
flag-3 branch of `Calibrator.make_histograms` (`all the photons were removed
after the arrival time cut`) can never fire: the branch is reached only with
at least 2 events, for which the filtered list is non-empty. -/
theorem c10_flag3_unreachable (dt : ℤ) (w : ℚ) (pl : List Photon) :
    (pl ≠ [] → removeTailRiding dt pl ≠ []
      ∧ ∃ p ∈ removeTailRiding dt pl, ∀ q ∈ pl, p.time ≤ q.time)
    ∧ (processPixelWavelength dt w pl).flag ≠ some 3 := by
  refine ⟨removeTailRiding_head_min dt pl, ?_⟩
  unfold processPixelWavelength
  by_cases h1 : pl.length < 2
  · rw [if_pos h1]
    simp
  · rw [if_neg h1]
    by_cases h2 : 2000 * (listMaxZ (pl.map (fun p => p.time))
        - listMinZ (pl.map (fun p => p.time))) < (pl.length : ℤ) * 1000000
    · rw [if_pos h2]
      simp
    · rw [if_neg h2]
      have hne : pl ≠ [] := by
        intro hcon
        rw [hcon] at h1
        exact h1 (by norm_num)
      have hrm := (removeTailRiding_head_min dt pl hne).1
      rw [if_neg (fun hzero => hrm (List.length_eq_zero.mp hzero))]
      by_cases h4 : (((removeTailRiding dt pl).map (fun p => p.phase)).filter
          (fun x => decide (x < 0))).length = 0
      · rw [if_pos h4]
        simp
      · rw [if_neg h4]
        simp

/-- C10 witness: a singleton photon list survives the filter and no flag-3 is
produced for it. -/
theorem c10_flag3_unreachable_witness :
    removeTailRiding 5 [⟨0, -1⟩] ≠ []
    ∧ (processPixelWavelength 5 1 [⟨0, -1⟩]).flag ≠ some 3 :=
  ⟨((c10_flag3_unreachable 5 1 [⟨0, -1⟩]).1 (by decide)).1,
   (c10_flag3_unreachable 5 1 [⟨0, -1⟩]).2⟩

/-- Helper: `np.any(array[i + 1:])` is equivalent to the existence of a
strictly later index whose boolean projection holds. -/
theorem anyDrop_iff {A : Type} (f : A → Bool) (d : A) (l : List A) (i : ℕ) :
    (((l.map f).drop (i + 1)).any id = true ↔
      ∃ j, j < l.length ∧ i < j ∧ f (l.getD j d) = true) := by
  rw [← List.map_drop, List.any_eq_true]
  constructor
  · rintro ⟨x, hmem, hx⟩
    rcases List.mem_map.mp hmem with ⟨m, hmdrop, hgm⟩
    rcases List.mem_iff_getElem.mp hmdrop with ⟨k, hk, hkm⟩
    have hklen : i + 1 + k < l.length := by
      simp only [List.length_drop] at hk
      omega
    refine ⟨i + 1 + k, hklen, by omega, ?_⟩
    rw [List.getD_eq_getElem _ _ hklen]
    have hdk : (l.drop (i + 1))[k] = l[i + 1 + k] := List.getElem_drop l
    rw [← hdk, hkm, hgm]
    simpa using hx
  · rintro ⟨j, hj, hij, hgood⟩
    refine ⟨true, ?_, rfl⟩
    have hk : j - (i + 1) < (l.drop (i + 1)).length := by
      simp only [List.length_drop]
      omega
    apply List.mem_map.mpr
    refine ⟨(l.drop (i + 1)).get ⟨j - (i + 1), hk⟩, List.get_mem _ _ _, ?_⟩
    rw [List.get_eq_getElem]
    have hdk : (l.drop (i + 1))[j - (i + 1)] = l[i + 1 + (j - (i + 1))] :=
      List.getElem_drop l
    rw [hdk]
    rw [List.getD_eq_getElem _ _ hj] at hgood
    have hidx2 : i + 1 + (j - (i + 1)) = j := by omega
    simp only [hidx2]
    exact hgood

/-- Helper: when the first good class among the remaining indices
`[c, c+1, ...]` is `k`, the retry loop returns the original stored model for
`k = 0` (the `break` without a store write) and the class-`k` fit otherwise
(the in-place fit of the freshly stored object). -/
theorem retryLoop_range' (oracle : ℕ → ℕ → HistModelFit) (i : ℕ)
    (stored : HistModelFit) (k : ℕ) (hg : (oracle i k).good = true)
    (hmin : ∀ j, j < k → (oracle i j).good = false) :
    ∀ (d c : ℕ) (tried : List HistModelFit), c ≤ k → k < c + d →
      retryLoop oracle i stored tried (List.range' c d)
        = (if k = 0 then stored else oracle i k)
  | 0, c, tried, hck, hkd => by omega
  | d + 1, c, tried, hck, hkd => by
    rw [List.range'_succ]
    show (if (oracle i c).good = true then (if c = 0 then stored else oracle i c)
          else retryLoop oracle i stored (tried ++ [oracle i c])
            (List.range' (c + 1) d)) = _
    by_cases hc : c = k
    · subst hc
      rw [if_pos hg]
    · have hck2 : c < k := by omega
      rw [if_neg (by simp [hmin c hck2])]
      exact retryLoop_range' oracle i stored k hg hmin d (c + 1)
        (tried ++ [oracle i c]) (by omega) (by omega)

/-- Helper: the `i`-th entry of the second pass. -/
theorem secondPassAliased_getD (C : ℕ) (oracle : ℕ → ℕ → HistModelFit)
    (slots : List PixelSlot) (i : ℕ) (hi : i < slots.length) :
    (secondPassAliased C oracle slots).getD i (sdefault, false)
      = (if (slots.getD i sdefault).stale.hasData
            && !(slots.getD i sdefault).stale.good
            && ((slots.map (fun s => s.stored.good)).drop (i + 1)).any id
         then (retryResult C oracle i (slots.getD i sdefault).stored
                 (slots.getD i sdefault).stale, true)
         else (slots.getD i sdefault, false)) := by
  have hlen : i < (secondPassAliased C oracle slots).length := by
    simpa [secondPassAliased] using hi
  rw [List.getD_eq_getElem _ _ hlen, List.getD_eq_getElem _ _ hi]
  simp [secondPassAliased]

/-- C3: the claim is false on the code.  Pixel state after pass 1: the first
wavelength's stored model is a not-good fit flagged 7 and its stale
`models[index]` object carries the same not-good fit; the second (longer)
wavelength's stored model is good.  With a single configured model class and
a retry oracle producing a good fit, the second pass retries the first
wavelength and the retry SUCCEEDS — yet the stored model is left unchanged
(still the flagged pass-1 copy, not good): the `break` at the matching first
model class mutates only the stale object and never writes the store, so
"the stored model ... is overwritten with the successful fit" fails. -/
theorem c3_counterexample :
    ((secondPassAliased 1 (fun _ _ => c3RetryModel) c3Slots).getD 0
        (sdefault, false)).2 = true
    ∧ c3RetryModel.good = true
    ∧ ((secondPassAliased 1 (fun _ _ => c3RetryModel) c3Slots).getD 0
        (sdefault, false)).1.stored = c3StoredBad
    ∧ c3StoredBad ≠ c3RetryModel
    ∧ ((secondPassAliased 1 (fun _ _ => c3RetryModel) c3Slots).getD 0
        (sdefault, false)).1.stored.good = false := by
  refine ⟨by decide, by decide, by decide, by decide, by decide⟩

/-- C3 amended: the second pass retries a wavelength iff the STALE pass-1
`models[index]` object (not the stored model) has histogram data and lacks a
good solution, and at least one strictly longer wavelength's STORED model has
a good histogram solution; when the retry's first good fit occurs at the
first configured model class the stored model is left unchanged, and only
when it occurs at a later class (after `_update_histogram_model` has swapped
the stored model) does the successful fit reach the store. -/
theorem c3_amended (C : ℕ) (oracle : ℕ → ℕ → HistModelFit)
    (slots : List PixelSlot) (i : ℕ) (hi : i < slots.length) :
    (((secondPassAliased C oracle slots).getD i (sdefault, false)).2 = true ↔
      ((slots.getD i sdefault).stale.hasData = true
        ∧ (slots.getD i sdefault).stale.good = false
        ∧ ∃ j, j < slots.length ∧ i < j
            ∧ (slots.getD j sdefault).stored.good = true))
    ∧ (0 < C → (oracle i 0).good = true →
        ((secondPassAliased C oracle slots).getD i (sdefault, false)).2 = true →
        ((secondPassAliased C oracle slots).getD i (sdefault, false)).1.stored
          = (slots.getD i sdefault).stored)
    ∧ (∀ k, 0 < k → k < C → (oracle i k).good = true →
        (∀ j, j < k → (oracle i j).good = false) →
        ((secondPassAliased C oracle slots).getD i (sdefault, false)).2 = true →
        ((secondPassAliased C oracle slots).getD i (sdefault, false)).1.stored
          = oracle i k) := by
  rw [secondPassAliased_getD C oracle slots i hi]
  refine ⟨?_, ?_, ?_⟩
  · by_cases hc : ((slots.getD i sdefault).stale.hasData
        && !(slots.getD i sdefault).stale.good
        && ((slots.map (fun s => s.stored.good)).drop (i + 1)).any id) = true
    · rw [if_pos hc]
      simp only [Bool.and_eq_true, Bool.not_eq_true'] at hc
      constructor
      · intro _
        exact ⟨hc.1.1, hc.1.2,
          (anyDrop_iff (fun s => s.stored.good) sdefault slots i).mp hc.2⟩
      · intro _
        rfl
    · rw [if_neg hc]
      constructor
      · intro hfalse
        exact absurd hfalse (by simp)
      · intro hcond
        refine absurd ?_ hc
        simp only [Bool.and_eq_true, Bool.not_eq_true']
        exact ⟨⟨hcond.1, hcond.2.1⟩,
          (anyDrop_iff (fun s => s.stored.good) sdefault slots i).mpr hcond.2.2⟩
  · intro hC hg0 hret
    by_cases hc : ((slots.getD i sdefault).stale.hasData
        && !(slots.getD i sdefault).stale.good
        && ((slots.map (fun s => s.stored.good)).drop (i + 1)).any id) = true
    · rw [if_pos hc]
      show (retryResult C oracle i (slots.getD i sdefault).stored
        (slots.getD i sdefault).stale).stored = (slots.getD i sdefault).stored
      show retryLoop oracle i (slots.getD i sdefault).stored [] (List.range C)
        = (slots.getD i sdefault).stored
      rw [List.range_eq_range',
        retryLoop_range' oracle i ((slots.getD i sdefault).stored) 0 hg0
          (fun j hj => absurd hj (by omega)) C 0 [] (by omega) (by omega)]
      rw [if_pos rfl]
    · rw [if_neg hc] at hret
      exact absurd hret (by simp)
  · intro k hk0 hkC hg hmin hret
    by_cases hc : ((slots.getD i sdefault).stale.hasData
        && !(slots.getD i sdefault).stale.good
        && ((slots.map (fun s => s.stored.good)).drop (i + 1)).any id) = true
    · rw [if_pos hc]
      show (retryResult C oracle i (slots.getD i sdefault).stored
        (slots.getD i sdefault).stale).stored = oracle i k
      show retryLoop oracle i (slots.getD i sdefault).stored [] (List.range C)
        = oracle i k
      rw [List.range_eq_range',
        retryLoop_range' oracle i ((slots.getD i sdefault).stored) k hg hmin
          C 0 [] (by omega) (by omega)]
      rw [if_neg (by omega)]
    · rw [if_neg hc] at hret
      exact absurd hret (by simp)

/-- C3 amended witness: with two model classes whose class-0 retry fit fails
and whose class-1 retry fit is good, the retry fires and the class-1 fit
reaches the store. -/
theorem c3_amended_witness :
    ((secondPassAliased 2 c3Oracle c3Slots).getD 0 (sdefault, false)).2 = true
    ∧ ((secondPassAliased 2 c3Oracle c3Slots).getD 0
        (sdefault, false)).1.stored = c3RetryModel := by
  have h := c3_amended 2 c3Oracle c3Slots 0 (by decide)
  have h2 : ((secondPassAliased 2 c3Oracle c3Slots).getD 0 (sdefault, false)).2
      = true :=
    h.1.mpr ⟨rfl, rfl, 1, by decide, by norm_num, rfl⟩
  refine ⟨h2, h.2.2 1 (by norm_num) (by norm_num) rfl ?_ h2⟩
  intro j hj
  interval_cases j
  rfl

/-- Helper: the monotonicity test fires iff some successive phase difference
is more negative than −4 times the sum of the adjacent sigmas. -/
theorem monoViolation_iff :
    ∀ (phases sigmas : List ℚ),
      (monoViolation phases sigmas = true ↔
        ∃ i, i + 1 < phases.length ∧ i + 1 < sigmas.length ∧
          phases.getD (i + 1) 0 - phases.getD i 0 <
            -4 * (sigmas.getD i 0 + sigmas.getD (i + 1) 0))
  | [], ss => by simp [monoViolation]
  | [p], ss => by simp [monoViolation]
  | p :: p2 :: ps, [] => by simp [monoViolation]
  | p :: p2 :: ps, [s] => by simp [monoViolation]
  | p :: p2 :: ps, s :: s2 :: ss => by
    have ih := monoViolation_iff (p2 :: ps) (s2 :: ss)
    have hstep : monoViolation (p :: p2 :: ps) (s :: s2 :: ss)
        = (decide (p2 - p < -4 * (s + s2)) || monoViolation (p2 :: ps) (s2 :: ss)) := rfl
    rw [hstep, Bool.or_eq_true, decide_eq_true_eq, ih]
    constructor
    · rintro (h | ⟨i, h1, h2, h3⟩)
      · refine ⟨0, ?_, ?_, by simpa using h⟩
        · simp only [List.length_cons]
          omega
        · simp only [List.length_cons]
          omega
      · refine ⟨i + 1, ?_, ?_, by simpa using h3⟩
        · simp only [List.length_cons] at h1 ⊢
          omega
        · simp only [List.length_cons] at h2 ⊢
          omega
    · rintro ⟨i, h1, h2, h3⟩
      cases i with
      | zero => exact Or.inl (by simpa using h3)
      | succ i2 =>
        refine Or.inr ⟨i2, ?_, ?_, by simpa using h3⟩
        · simp only [List.length_cons] at h1 ⊢
          omega
        · simp only [List.length_cons] at h2 ⊢
          omega

/-- Helper: `[10, 5, -5]` with sigmas 0.01 fires the monotonicity test
(difference −5 is below −0.08). -/
theorem monoViolation_ex1 :
    monoViolation [10, 5, -5] [1/100, 1/100, 1/100] = true :=
  (monoViolation_iff _ _).mpr ⟨0, by norm_num, by norm_num, by
    norm_num [List.getD_cons_zero, List.getD_cons_succ]⟩

/-- Helper: `[10, 20, 5]` with sigmas 0.01 fires the monotonicity test
(difference −15 is below −0.08). -/
theorem monoViolation_ex2 :
    monoViolation [10, 20, 5] [1/100, 1/100, 1/100] = true :=
  (monoViolation_iff _ _).mpr ⟨1, by norm_num, by norm_num, by
    norm_num [List.getD_cons_zero, List.getD_cons_succ]⟩

/-- C4: the claim is false on the code.  Phase centers `[10, 5, -5]`
(decreasing) with small sigmas `[0.01, 0.01, 0.01]` DO trigger the
"not monotonic enough" flag: the successive differences −5 and −10 are more
negative than −4·(0.01 + 0.01) = −0.08, so `(diff < -4*(σᵢ+σᵢ₊₁)).any()` is
true and flag 12 is set, contradicting the claim's "do not trigger the flag"
for this input. -/
theorem c4_counterexample :
    monoViolation [10, 5, -5] [1/100, 1/100, 1/100] = true
    ∧ calibCheck [10, 5, -5] [1/100, 1/100, 1/100] = (some 12, true) := by
  refine ⟨monoViolation_ex1, ?_⟩
  unfold calibCheck
  rw [if_neg (by norm_num), monoViolation_ex1]
  simp

/-- C4 amended: with at least 3 good points, flag 12 is set iff some
successive phase difference is more negative than −4·(σᵢ + σᵢ₊₁); the fit is
still attempted when the flag is set; `[10, 20, 5]` with small sigmas
triggers the flag, and `[10, 5, -5]` with small sigmas *also* triggers it
(its differences are negative beyond the tolerance). -/
theorem c4_amended (phases sigmas : List ℚ) (h3 : 3 ≤ phases.length) :
    ((calibCheck phases sigmas).1 = some 12 ↔
      ∃ i, i + 1 < phases.length ∧ i + 1 < sigmas.length ∧
        phases.getD (i + 1) 0 - phases.getD i 0 <
          -4 * (sigmas.getD i 0 + sigmas.getD (i + 1) 0))
    ∧ (calibCheck phases sigmas).2 = true
    ∧ calibCheck [10, 20, 5] [1/100, 1/100, 1/100] = (some 12, true)
    ∧ calibCheck [10, 5, -5] [1/100, 1/100, 1/100] = (some 12, true) := by
  have hnot : ¬ phases.length < 3 := by omega
  have hc2 : calibCheck [10, 20, 5] [1/100, 1/100, 1/100] = (some 12, true) := by
    unfold calibCheck
    rw [if_neg (by norm_num), monoViolation_ex2]
    simp
  have hc1 : calibCheck [10, 5, -5] [1/100, 1/100, 1/100] = (some 12, true) := by
    unfold calibCheck
    rw [if_neg (by norm_num), monoViolation_ex1]
    simp
  unfold calibCheck
  rw [if_neg hnot]
  refine ⟨?_, rfl, hc2, hc1⟩
  rw [← monoViolation_iff phases sigmas]
  by_cases hm : monoViolation phases sigmas
  · simp [hm]
  · simp [hm]

/-- C4 witness: the amended statement evaluated on `[10, 20, 5]`. -/
theorem c4_amended_witness :
    (calibCheck [10, 20, 5] [1/100, 1/100, 1/100]).2 = true :=
  (c4_amended [10, 20, 5] [1/100, 1/100, 1/100] (by decide)).2.1

/-- Helper: a left fold by `min` returns the seed or a list element. -/
theorem foldl_min_mem : ∀ (xs : List ℚ) (x : ℚ),
    xs.foldl min x = x ∨ xs.foldl min x ∈ xs
  | [], _ => Or.inl rfl
  | y :: ys, x => by
    rw [List.foldl_cons]
    rcases foldl_min_mem ys (min x y) with h | h
    · rw [h]
      rcases min_choice x y with h2 | h2
      · exact Or.inl h2
      · right
        rw [h2]
        exact List.mem_cons_self y ys
    · right
      exact List.mem_cons_of_mem y h

/-- Helper: a left fold by `max` returns the seed or a list element. -/
theorem foldl_max_mem : ∀ (xs : List ℚ) (x : ℚ),
    xs.foldl max x = x ∨ xs.foldl max x ∈ xs
  | [], _ => Or.inl rfl
  | y :: ys, x => by
    rw [List.foldl_cons]
    rcases foldl_max_mem ys (max x y) with h | h
    · rw [h]
      rcases max_choice x y with h2 | h2
      · exact Or.inl h2
      · right
        rw [h2]
        exact List.mem_cons_self y ys
    · right
      exact List.mem_cons_of_mem y h

/-- Helper: the minimum of a non-empty list is one of its elements. -/
theorem listMinQ_mem (l : List ℚ) (h : l ≠ []) : listMinQ l ∈ l := by
  cases l with
  | nil => exact absurd rfl h
  | cons x xs =>
    show List.foldl min x xs ∈ x :: xs
    rcases foldl_min_mem xs x with h2 | h2
    · rw [h2]
      exact List.mem_cons_self x xs
    · exact List.mem_cons_of_mem x h2

/-- Helper: the maximum of a non-empty list is one of its elements. -/
theorem listMaxQ_mem (l : List ℚ) (h : l ≠ []) : listMaxQ l ∈ l := by
  cases l with
  | nil => exact absurd rfl h
  | cons x xs =>
    show List.foldl max x xs ∈ x :: xs
    rcases foldl_max_mem xs x with h2 | h2
    · rw [h2]
      exact List.mem_cons_self x xs
    · exact List.mem_cons_of_mem x h2

/-- Helper: `np.argmin` is a valid index on non-empty data. -/
theorem argminIdx_lt (l : List ℚ) (h : l ≠ []) : argminIdx l < l.length :=
  List.findIdx_lt_length_of_exists ⟨listMinQ l, listMinQ_mem l h, by simp⟩

/-- Helper: `np.argmax` is a valid index on non-empty data. -/
theorem argmaxIdx_lt (l : List ℚ) (h : l ≠ []) : argmaxIdx l < l.length :=
  List.findIdx_lt_length_of_exists ⟨listMaxQ l, listMaxQ_mem l h, by simp⟩

/-- Helper: the element at `np.argmin` is the minimum. -/
theorem argminIdx_getD (l : List ℚ) (h : l ≠ []) :
    l.getD (argminIdx l) 0 = listMinQ l := by
  have hlt := argminIdx_lt l h
  rw [List.getD_eq_getElem _ _ hlt]
  have hfind := @List.findIdx_getElem _ (fun x => decide (x = listMinQ l)) l hlt
  simpa using hfind

/-- Helper: the element at `np.argmax` is the maximum. -/
theorem argmaxIdx_getD (l : List ℚ) (h : l ≠ []) :
    l.getD (argmaxIdx l) 0 = listMaxQ l := by
  have hlt := argmaxIdx_lt l h
  rw [List.getD_eq_getElem _ _ hlt]
  have hfind := @List.findIdx_getElem _ (fun x => decide (x = listMaxQ l)) l hlt
  simpa using hfind

/-- C5: the claim is false on the code.  With good-fit phases `[10, 20]` and
signal sigmas `[4, 9]`, the code sets the domain to
`(10 - 3·√4, 20 + 3·√9) = (4, 29)`, not the claimed
`(min - 3·σ_min, max + 3·σ_max) = (-2, 47)`: the code takes `np.sqrt` of the
sigma. -/
theorem c5_counterexample :
    (calibDomain [10, 20] [4, 9]).1 = 4
    ∧ (calibDomain [10, 20] [4, 9]).2 = 29
    ∧ ¬((calibDomain [10, 20] [4, 9]).1
          = ((listMinQ [10, 20] : ℚ) : ℝ) - 3 * ((4 : ℚ) : ℝ)
        ∧ (calibDomain [10, 20] [4, 9]).2
          = ((listMaxQ [10, 20] : ℚ) : ℝ) + 3 * ((9 : ℚ) : ℝ)) := by
  have hargmin : argminIdx [10, 20] = 0 := by decide
  have hargmax : argmaxIdx [10, 20] = 1 := by decide
  have h4 : Real.sqrt (((4 : ℚ) : ℝ)) = 2 := by
    rw [show (((4 : ℚ) : ℝ)) = (2 : ℝ) ^ 2 by norm_num]
    exact Real.sqrt_sq (by norm_num)
  have h9 : Real.sqrt (((9 : ℚ) : ℝ)) = 3 := by
    rw [show (((9 : ℚ) : ℝ)) = (3 : ℝ) ^ 2 by norm_num]
    exact Real.sqrt_sq (by norm_num)
  have hdom : calibDomain [10, 20] [4, 9]
      = (((10 : ℚ) : ℝ) - 3 * Real.sqrt (((4 : ℚ) : ℝ)),
         ((20 : ℚ) : ℝ) + 3 * Real.sqrt (((9 : ℚ) : ℝ))) := by
    unfold calibDomain
    rw [hargmin, hargmax]
    rfl
  have hminv : listMinQ [10, 20] = 10 := by decide
  have hmaxv : listMaxQ [10, 20] = 20 := by decide
  refine ⟨?_, ?_, ?_⟩
  · rw [hdom, h4]
    push_cast
    norm_num
  · rw [hdom, h9]
    push_cast
    norm_num
  · rintro ⟨ha, _⟩
    rw [hdom, h4, hminv] at ha
    push_cast at ha
    norm_num at ha

/-- C5 amended: the code sets the valid domain to
`[min_phase - 3·√(σ_min), max_phase + 3·√(σ_max)]` where `σ_min`/`σ_max` are
the histogram-fit signal sigmas at the (first) extreme phase points:
`np.argmin`/`np.argmax` select the first extreme index, the element there is
the true minimum/maximum, and the sigma is paired by the same index. -/
theorem c5_amended (phases sigmas : List ℚ) (h : phases ≠ []) :
    calibDomain phases sigmas
      = (((listMinQ phases : ℚ) : ℝ)
           - 3 * Real.sqrt ((sigmas.getD (argminIdx phases) 0 : ℚ) : ℝ),
         ((listMaxQ phases : ℚ) : ℝ)
           + 3 * Real.sqrt ((sigmas.getD (argmaxIdx phases) 0 : ℚ) : ℝ))
    ∧ phases.getD (argminIdx phases) 0 = listMinQ phases
    ∧ phases.getD (argmaxIdx phases) 0 = listMaxQ phases
    ∧ argminIdx phases < phases.length ∧ argmaxIdx phases < phases.length := by
  have h1 := argminIdx_getD phases h
  have h2 := argmaxIdx_getD phases h
  refine ⟨?_, h1, h2, argminIdx_lt phases h, argmaxIdx_lt phases h⟩
  show (((phases.getD (argminIdx phases) 0 : ℚ) : ℝ)
          - 3 * Real.sqrt ((sigmas.getD (argminIdx phases) 0 : ℚ) : ℝ),
        ((phases.getD (argmaxIdx phases) 0 : ℚ) : ℝ)
          + 3 * Real.sqrt ((sigmas.getD (argmaxIdx phases) 0 : ℚ) : ℝ)) = _
  rw [h1, h2]

/-- C5 witness: the amended statement evaluated on phases `[10, 20]`,
sigmas `[4, 9]`. -/
theorem c5_amended_witness :
    [10, 20].getD (argminIdx [10, 20]) 0 = listMinQ [10, 20] :=
  (c5_amended [10, 20] [4, 9] (by decide)).2.1

/-- C8: loading the archive written by `Solution.save` reproduces the
solution: the whole state, and in particular the beam map, beam-map flags,
configuration, and every pixel slot of the fit array (with its histogram
models' flags and parameters and its calibration model), are identical. -/
theorem c8_round_trip {Cfg : Type} (s : SolutionState Cfg) :
    solutionLoad (solutionSave s) = s
    ∧ (solutionLoad (solutionSave s)).beam_map = s.beam_map
    ∧ (solutionLoad (solutionSave s)).beam_map_flags = s.beam_map_flags
    ∧ (solutionLoad (solutionSave s)).cfg = s.cfg
    ∧ ∀ x y, ((solutionLoad (solutionSave s)).fit_array.getD x []).getD y
          ⟨[], ⟨0, false, false, none, []⟩⟩
        = (s.fit_array.getD x []).getD y ⟨[], ⟨0, false, false, none, []⟩⟩ :=
  ⟨rfl, rfl, rfl, rfl, fun _ _ => rfl⟩

/-- Helper: merging a coherent result list (each result is the deterministic
per-pixel computation) writes `compute q` at exactly the computed pixels,
regardless of order. -/
theorem mergeResults_coherent {α : Type} (compute : PixelPos → α) :
    ∀ (rs : List (PixelPos × α)) (init : PixelPos → Option α),
      (∀ r ∈ rs, r.2 = compute r.1) →
      ∀ q, mergeResults init rs q
        = if q ∈ rs.map Prod.fst then some (compute q) else init q
  | [], init, _, q => by simp [mergeResults]
  | r :: rs, init, hcoh, q => by
    have ih := mergeResults_coherent compute rs (applyResult init r)
      (fun x hx => hcoh x (List.mem_cons_of_mem r hx)) q
    show mergeResults (applyResult init r) rs q = _
    rw [ih]
    by_cases hq : q ∈ rs.map Prod.fst
    · rw [if_pos hq, if_pos (by simp only [List.map_cons, List.mem_cons]; exact Or.inr hq)]
    · rw [if_neg hq]
      unfold applyResult
      by_cases hqr : q = r.1
      · rw [if_pos hqr,
          if_pos (by simp only [List.map_cons, List.mem_cons]; exact Or.inl hqr)]
        rw [hcoh r (List.mem_cons_self r rs), hqr]
      · rw [if_neg hqr, if_neg (by
          simp only [List.map_cons, List.mem_cons]
          rintro (hc | hc)
          · exact hqr hc
          · exact hq hc)]

/-- C9: merging the worker results into the solution store is independent of
completion order: any permutation of the per-pixel results (an N-worker
completion order) produces the same merged store as the dispatch order
(the 1-worker completion order), because each result is the same
deterministic function of its pixel and the merge is keyed by pixel. -/
theorem c9_merge_order_invariant {α : Type} (init : PixelPos → Option α)
    (pixels : List PixelPos) (compute : PixelPos → α)
    (order : List (PixelPos × α))
    (hperm : order.Perm (workerOutputs pixels compute)) :
    mergeResults init order = mergeResults init (workerOutputs pixels compute) := by
  funext q
  have hco : ∀ r ∈ workerOutputs pixels compute, r.2 = compute r.1 := by
    intro r hr
    rcases List.mem_map.mp hr with ⟨p, _, hpr⟩
    rw [← hpr]
  have hco2 : ∀ r ∈ order, r.2 = compute r.1 := fun r hr => hco r (hperm.mem_iff.mp hr)
  rw [mergeResults_coherent compute order init hco2 q,
      mergeResults_coherent compute (workerOutputs pixels compute) init hco q]
  have hmem : (q ∈ order.map Prod.fst)
      ↔ (q ∈ (workerOutputs pixels compute).map Prod.fst) :=
    (hperm.map Prod.fst).mem_iff
  by_cases hq : q ∈ order.map Prod.fst
  · rw [if_pos hq, if_pos (hmem.mp hq)]
  · rw [if_neg hq, if_neg (fun hc => hq (hmem.mpr hc))]

/-- C9 witness: two pixels merged in swapped completion order give the same
store as the dispatch order. -/
theorem c9_merge_order_invariant_witness :
    mergeResults (fun _ => (none : Option ℕ)) [((1, 0), 7), ((0, 0), 7)]
      = mergeResults (fun _ => none) (workerOutputs [(0, 0), (1, 0)] (fun _ => 7)) :=
  c9_merge_order_invariant _ [(0, 0), (1, 0)] (fun _ => 7) [((1, 0), 7), ((0, 0), 7)]
    (List.Perm.swap _ _ _)

end Wavecal
